import Mathlib

/-!
Verification development for the decorated-schema processor
(src/schema/decorated-schema-processor.ts): translation of annotated
class metadata into nested schema documents.

The embedding is a direct shallow translation of the TypeScript source:
  - JavaScript objects used as ordered string-keyed maps become
    association lists (`Schema := List (String × SchemaNode)`), with
    assignment semantics matching JS objects (an assignment to an
    existing key keeps its position, a new key is appended).
  - `undefined`-able values become `Option`.
  - The metadata store (an external collaborator in the source, reached
    through `getDecoratorMetaStorage`) becomes an explicit read-only
    `Store` record of lookup functions keyed by class name.
  - The unguarded recursion of `buildTigrisSchema` through embedded
    class references becomes recursion on an explicit fuel parameter
    that decreases at each class-reference recursion; the source has no
    cycle guard, so fuel only matters on cyclic class graphs, which the
    design assumes away.
-/

set_option autoImplicit false

namespace TigrisSchemaProc

/-- The data-type tags referenced by the processor (`TigrisDataTypes`
in ../types). Only the tags the processor mentions are needed. -/
inductive TigrisDataTypes where
  | STRING
  | BOOLEAN
  | INT32
  | INT64
  | NUMBER
  | NUMBER_BIGINT
  | DATE_TIME
  | BYTE_STRING
  | UUID
  | ARRAY
  | OBJECT
deriving DecidableEq, Repr, Fintype

/-- Values stored in option bags (defaults, flags, dimensions, ...).
The processor copies these opaquely; a small closed value type keeps
equality decidable. -/
inductive Value where
  | vBool (b : Bool)
  | vInt (n : Int)
  | vStr (s : String)
deriving DecidableEq, Repr

/-- The eight optional schema attribute names recognised by the static
option table (`schemaOptions` in the source). -/
inductive AttrName where
  | default
  | timestamp
  | searchIndex
  | sort
  | facet
  | dimensions
  | id
  | index
deriving DecidableEq, Repr, Fintype

/-- An option bag (`schemaFieldOptions` on field metadata): the eight
optional attributes plus `maxLength`. A `none` entry models an absent
key of the JS object. -/
structure FieldOptionsBag where
  default : Option Value := none
  timestamp : Option Value := none
  searchIndex : Option Value := none
  sort : Option Value := none
  facet : Option Value := none
  dimensions : Option Value := none
  id : Option Value := none
  index : Option Value := none
  maxLength : Option Nat := none
deriving DecidableEq, Repr

/-- Key lookup in an option bag (`attrName in fieldOptions` /
`fieldOptions[attrName]`). -/
def bagGet (bag : FieldOptionsBag) : AttrName → Option Value
  | .default => bag.default
  | .timestamp => bag.timestamp
  | .searchIndex => bag.searchIndex
  | .sort => bag.sort
  | .facet => bag.facet
  | .dimensions => bag.dimensions
  | .id => bag.id
  | .index => bag.index

/-- The empty option bag (the JS object literal produced by spreading
`undefined`). -/
def emptyBag : FieldOptionsBag := {}

/-- One key of an object spread: the later (search) value wins when
present, otherwise the earlier (collection) value survives. -/
def overrideOpt {α : Type} (cf sf : Option α) : Option α :=
  match sf with
  | some v => some v
  | none => cf

/-- Object spread `{ ...cf, ...sf }` restricted to option bags: every
key present in `sf` overrides the one in `cf`. -/
def mergeBags (cf sf : FieldOptionsBag) : FieldOptionsBag where
  default := overrideOpt cf.default sf.default
  timestamp := overrideOpt cf.timestamp sf.timestamp
  searchIndex := overrideOpt cf.searchIndex sf.searchIndex
  sort := overrideOpt cf.sort sf.sort
  facet := overrideOpt cf.facet sf.facet
  dimensions := overrideOpt cf.dimensions sf.dimensions
  id := overrideOpt cf.id sf.id
  index := overrideOpt cf.index sf.index
  maxLength := overrideOpt cf.maxLength sf.maxLength

/-- Class identity: the metadata store is keyed by class reference; the
embedding identifies a class by its (unique) name, which is also what
`collectionClass.name` yields for error messages. -/
abbrev ClassName := String

/-- The embed type of an ARRAY/OBJECT field: either a scalar type tag or
a reference to another annotated class (`typeof embedType === "function"`
in the source discriminates the two). -/
abbrev EmbedTarget := TigrisDataTypes ⊕ ClassName

/-- Field metadata (`FieldMetadata` / `SearchFieldMetadata`): one
declared property. -/
structure FieldMeta where
  name : String
  type : TigrisDataTypes
  embedType : Option EmbedTarget := none
  arrayDepth : Option Nat := none
  schemaFieldOptions : Option FieldOptionsBag := none
deriving DecidableEq, Repr

/-- Primary-key options (`options` on `PrimaryKeyMetadata`). -/
structure PKOptions where
  order : Option Int := none
  autoGenerate : Option Bool := none
deriving DecidableEq, Repr

/-- Primary-key metadata (`PrimaryKeyMetadata`). -/
structure PrimaryKeyMetadata where
  name : String
  type : TigrisDataTypes
  options : Option PKOptions := none
deriving DecidableEq, Repr

/-- The `primary_key` attribute written onto a schema node. -/
structure PrimaryKeyAttr where
  order : Int
  autoGenerate : Bool
deriving DecidableEq, Repr

/-- A schema node: the per-field output unit. The `type` slot holds
either a plain type tag or (for embedded classes) a whole nested schema;
`none` models the `{ type: undefined }` the source produces for an ARRAY
field with no embed type. The eight optional attributes are explicit
`Option` slots; `primaryKey` models the `primary_key` key. -/
inductive SchemaNode where
  | mk
      (type : Option (TigrisDataTypes ⊕ List (String × SchemaNode)))
      (items : Option SchemaNode)
      (maxLength : Option Nat)
      (primaryKey : Option PrimaryKeyAttr)
      (default : Option Value)
      (timestamp : Option Value)
      (searchIndex : Option Value)
      (sort : Option Value)
      (facet : Option Value)
      (dimensions : Option Value)
      (id : Option Value)
      (index : Option Value)

/-- A schema document body: an ordered field-name-keyed map, as the JS
object the builder fills in. -/
abbrev Schema := List (String × SchemaNode)

namespace SchemaNode

def type : SchemaNode → Option (TigrisDataTypes ⊕ Schema)
  | .mk t _ _ _ _ _ _ _ _ _ _ _ => t

def items : SchemaNode → Option SchemaNode
  | .mk _ it _ _ _ _ _ _ _ _ _ _ => it

def maxLength : SchemaNode → Option Nat
  | .mk _ _ ml _ _ _ _ _ _ _ _ _ => ml

def primaryKey : SchemaNode → Option PrimaryKeyAttr
  | .mk _ _ _ pk _ _ _ _ _ _ _ _ => pk

def attr : SchemaNode → AttrName → Option Value
  | .mk _ _ _ _ d ts si so fa di i ix, a =>
    match a with
    | .default => d
    | .timestamp => ts
    | .searchIndex => si
    | .sort => so
    | .facet => fa
    | .dimensions => di
    | .id => i
    | .index => ix

/-- Assignment `node[attrName] = v`. -/
def setAttr : SchemaNode → AttrName → Option Value → SchemaNode
  | .mk t it ml pk d ts si so fa di i ix, a, v =>
    match a with
    | .default => .mk t it ml pk v ts si so fa di i ix
    | .timestamp => .mk t it ml pk d v si so fa di i ix
    | .searchIndex => .mk t it ml pk d ts v so fa di i ix
    | .sort => .mk t it ml pk d ts si v fa di i ix
    | .facet => .mk t it ml pk d ts si so v di i ix
    | .dimensions => .mk t it ml pk d ts si so fa v i ix
    | .id => .mk t it ml pk d ts si so fa di v ix
    | .index => .mk t it ml pk d ts si so fa di i v

/-- Assignment `node.maxLength = m`. -/
def setMaxLength : SchemaNode → Nat → SchemaNode
  | .mk t it _ pk d ts si so fa di i ix, m =>
    .mk t it (some m) pk d ts si so fa di i ix

/-- Assignment `node["primary_key"] = pkAttr`. -/
def setPrimaryKey : SchemaNode → PrimaryKeyAttr → SchemaNode
  | .mk t it ml _ d ts si so fa di i ix, pk =>
    .mk t it ml (some pk) d ts si so fa di i ix

end SchemaNode

/-- The seed node `{ type: fieldType }`. -/
def plainNode (t : TigrisDataTypes) : SchemaNode :=
  .mk (some (Sum.inl t)) none none none none none none none none none none none

/-- A node `{ type: x }` whose type slot may hold a nested schema or be
absent. -/
def typeNode (t : Option (TigrisDataTypes ⊕ Schema)) : SchemaNode :=
  .mk t none none none none none none none none none none none

/-- An array wrapper `{ type: ARRAY, items: inner }`. -/
def arrayWrapNode (inner : SchemaNode) : SchemaNode :=
  .mk (some (Sum.inl TigrisDataTypes.ARRAY)) (some inner)
    none none none none none none none none none none

/-- `key in schema`. -/
def hasKey (s : Schema) (k : String) : Bool :=
  s.any (fun p => p.1 = k)

/-- First (and, absent duplicates, only) binding of a key. -/
def getKey : Schema → String → Option SchemaNode
  | [], _ => none
  | (k2, v) :: rest, k => if k2 = k then some v else getKey rest k

/-- JS object assignment `schema[k] = v`: replace in place when the key
exists, append otherwise. -/
def setKey : Schema → String → SchemaNode → Schema
  | [], k, v => [(k, v)]
  | (k2, v2) :: rest, k, v =>
    if k2 = k then (k, v) :: rest else (k2, v2) :: setKey rest k v

/-- In-place update of the node stored under an existing key
(`schema[k].attr = ...` patterns). A missing key is left alone, matching
the source where the key is always seeded first. -/
def modifyKey : Schema → String → (SchemaNode → SchemaNode) → Schema
  | [], _, _ => []
  | (k2, v2) :: rest, k, f =>
    if k2 = k then (k, f v2) :: rest else (k2, v2) :: modifyKey rest k f

/-- One row of the static option applicability table
(`SchemaFieldOptions` in the source): the attribute name, the field
types it cannot be attached to, and the parent field types under which
it cannot be attached. -/
structure SchemaFieldOptions where
  attrName : AttrName
  doesNotApplyTo : List TigrisDataTypes
  doesNotApplyToParent : List TigrisDataTypes
deriving DecidableEq, Repr

/-- The static option applicability table (`schemaOptions`), row for row
from the source. -/
def schemaOptions : List SchemaFieldOptions :=
  [ { attrName := .default,
      doesNotApplyTo := [],
      doesNotApplyToParent := [] },
    { attrName := .timestamp,
      doesNotApplyTo := [.OBJECT],
      doesNotApplyToParent := [] },
    { attrName := .searchIndex,
      doesNotApplyTo := [.OBJECT],
      doesNotApplyToParent := [.ARRAY] },
    { attrName := .sort,
      doesNotApplyTo := [.OBJECT],
      doesNotApplyToParent := [.ARRAY] },
    { attrName := .facet,
      doesNotApplyTo := [.OBJECT],
      doesNotApplyToParent := [.ARRAY] },
    { attrName := .dimensions,
      doesNotApplyTo := [.OBJECT, .NUMBER],
      doesNotApplyToParent := [.ARRAY] },
    { attrName := .id,
      doesNotApplyTo :=
        [.OBJECT, .ARRAY, .NUMBER, .BOOLEAN, .NUMBER_BIGINT,
         .INT64, .INT32, .DATE_TIME],
      doesNotApplyToParent := [.ARRAY] },
    { attrName := .index,
      doesNotApplyTo := [.OBJECT, .ARRAY],
      doesNotApplyToParent := [.ARRAY, .OBJECT] } ]

/-- `schemaOptionSupported`: an attribute is attached iff its key is
present in the option bag, the field type is not excluded, and, when a
parent field type is tracked (`fieldParentType` truthy in JS, `some` in
the embedding), the parent type is not excluded either. -/
def schemaOptionSupported (fieldOptions : FieldOptionsBag)
    (fieldType : TigrisDataTypes) (fieldParentType : Option TigrisDataTypes)
    (attr : SchemaFieldOptions) : Bool :=
  (bagGet fieldOptions attr.attrName).isSome
    && !(attr.doesNotApplyTo.contains fieldType)
    && (match fieldParentType with
        | none => true
        | some p => !(attr.doesNotApplyToParent.contains p))

/-- The read-only metadata store (`DecoratorMetaStorage`): per class,
the collection fields, search fields and primary keys in declaration
order, plus the registered collection and index names. -/
structure Store where
  collectionFieldsOf : ClassName → List FieldMeta
  searchFieldsOf : ClassName → List FieldMeta
  pksOf : ClassName → List PrimaryKeyMetadata
  collectionNameOf : ClassName → String
  indexNameOf : ClassName → String

/-- The `searchFieldsLookup` object: built by a loop that assigns
`lookup[field.name] = field` for each search field in order, so the
last search field with a given name wins. -/
def searchFieldsLookup (searchFields : List FieldMeta) (n : String) :
    Option FieldMeta :=
  searchFields.foldl (fun acc f => if f.name = n then some f else acc) none

/-- The merged option bag for one collection field: when a search field
of the same name exists, its bag is spread on top of the collection
field bag (`{ ...cf.schemaFieldOptions, ...searchField.schemaFieldOptions }`,
spreading `undefined` as the empty object); otherwise the collection
bag is kept as is. -/
def mergedOptionOf (searchFields : List FieldMeta) (cf : FieldMeta) :
    Option FieldOptionsBag :=
  match searchFieldsLookup searchFields cf.name with
  | some sf =>
    some (mergeBags (cf.schemaFieldOptions.getD emptyBag)
      (sf.schemaFieldOptions.getD emptyBag))
  | none => cf.schemaFieldOptions

/-- The descriptor pushed for one collection field:
`{ ...cf, schemaFieldOptions: fieldOption }`. -/
def resolveField (searchFields : List FieldMeta) (cf : FieldMeta) :
    FieldMeta :=
  { cf with schemaFieldOptions := mergedOptionOf searchFields cf }

/-- One iteration of the collection-field loop: push the resolved
descriptor and mark the name visited. -/
def collectStep (searchFields : List FieldMeta)
    (acc : List FieldMeta × List String) (cf : FieldMeta) :
    List FieldMeta × List String :=
  (acc.1 ++ [resolveField searchFields cf], acc.2 ++ [cf.name])

/-- One iteration of the search-field loop: append the search field
unless its name was visited by the collection-field loop. -/
def appendUnvisited (visited : List String) (fields : List FieldMeta)
    (sf : FieldMeta) : List FieldMeta :=
  if visited.contains sf.name then fields else fields ++ [sf]

/-- `getSchemaFields`: the Field Resolver. In index mode the search
fields are returned verbatim. In collection mode each collection field
is emitted (with the matching search-field option bag spread on top of
its own when one exists) and its name marked visited; then the search
fields whose names were not visited are appended. -/
def getSchemaFields (store : Store) (from_ : ClassName)
    (forCollection : Bool) : List FieldMeta :=
  let searchFields := store.searchFieldsOf from_
  if !forCollection then searchFields
  else
    let collectionFields := store.collectionFieldsOf from_
    let fv := collectionFields.foldl (collectStep searchFields) ([], [])
    searchFields.foldl (appendUnvisited fv.2) fv.1

/-- `buildNestedArray`: the while loop builds, for any depth `d ≥ 1`
(the only depths the caller produces), exactly `d` nested
`{ type: ARRAY, items: _ }` wrappers whose innermost `items` slot holds
the element descriptor. The recursion below is that chain; the `0` case
is never reached from `processField`. -/
def buildNestedArray (items : SchemaNode) : Nat → SchemaNode
  | 0 => items
  | d + 1 => arrayWrapNode (buildNestedArray items d)

/-- The element descriptor of an ARRAY field (`arrayItems`): a nested
schema for a class-reference embed type, the scalar tag otherwise, and
an absent type slot when the embed type is missing. -/
def arrayElementNode (recurse : Option TigrisDataTypes → ClassName → Schema)
    (childParent : Option TigrisDataTypes) (field : FieldMeta) : SchemaNode :=
  match field.embedType with
  | some (Sum.inr cls) => typeNode (some (Sum.inr (recurse childParent cls)))
  | some (Sum.inl t) => typeNode (some (Sum.inl t))
  | none => typeNode none

/-- The effective nesting depth of an ARRAY field:
`field.arrayDepth && field.arrayDepth > 1 ? field.arrayDepth : 1` (an
absent, zero or one depth collapses to one). -/
def effectiveArrayDepth (field : FieldMeta) : Nat :=
  match field.arrayDepth with
  | some d => if 1 < d then d else 1
  | none => 1

/-- The body of the per-field loop of `buildTigrisSchema`. `recurse` is
the recursive call at one less fuel with the mode flag fixed; the
argument it receives for the parent type is `parentFieldType ?? field.type`
exactly as in the source, so an already-tracked parent type is threaded
down unchanged. -/
def processField (recurse : Option TigrisDataTypes → ClassName → Schema)
    (parentFieldType : Option TigrisDataTypes)
    (schema : Schema) (field : FieldMeta) : Schema :=
  let key := field.name
  let schema1 :=
    if hasKey schema key then schema
    else setKey schema key (plainNode field.type)
  let childParent : Option TigrisDataTypes :=
    some (parentFieldType.getD field.type)
  let schema2 :=
    match field.type with
    | .ARRAY =>
      setKey schema1 key
        (buildNestedArray (arrayElementNode recurse childParent field)
          (effectiveArrayDepth field))
    | .OBJECT =>
      match field.embedType with
      | some (Sum.inr cls) =>
        let embedSchema := recurse childParent cls
        if 0 < embedSchema.length then
          setKey schema1 key (typeNode (some (Sum.inr (recurse childParent cls))))
        else schema1
      | _ => schema1
    | .STRING =>
      match field.schemaFieldOptions with
      | some bag =>
        match bag.maxLength with
        | some m => modifyKey schema1 key (fun n => n.setMaxLength m)
        | none => schema1
      | none => schema1
    | _ => schema1
  match field.schemaFieldOptions with
  | none => schema2
  | some bag =>
    schemaOptions.foldl
      (fun s op =>
        if schemaOptionSupported bag field.type parentFieldType op then
          modifyKey s key
            (fun n => n.setAttr op.attrName (bagGet bag op.attrName))
        else s)
      schema2

/-- `buildTigrisSchema`: the recursive Schema Builder. Fuel decreases at
each recursion into an embedded class; the source has no cycle guard,
so on the acyclic class graphs it assumes, any fuel at least the
embedding depth gives the exact source behaviour. -/
def buildTigrisSchema (store : Store) :
    Nat → Bool → Option TigrisDataTypes → ClassName → Schema
  | 0, _, _, _ => []
  | n + 1, forCollection, parentFieldType, from_ =>
    (getSchemaFields store from_ forCollection).foldl
      (processField (buildTigrisSchema store n forCollection) parentFieldType)
      []

/-- `IncompletePrimaryKeyOrderError`: carries the offending field name
and class name. -/
structure IncompletePrimaryKeyOrderError where
  fieldName : String
  className : String
deriving DecidableEq, Repr

/-- The truthiness test `!pk?.options?.order` negated: the order chain
is truthy iff the options object is present, its `order` is present,
and that order is a nonzero number. -/
def truthyOrder (pk : PrimaryKeyMetadata) : Bool :=
  match pk.options with
  | none => false
  | some o =>
    match o.order with
    | none => false
    | some v => v != 0

/-- `validatePrimaryKeysOrder`: when more than one primary key is
declared, the first descriptor whose order chain is falsy aborts the
build. -/
def validatePrimaryKeysOrder (primaryKeys : List PrimaryKeyMetadata)
    (className : String) : Except IncompletePrimaryKeyOrderError Unit :=
  if 1 < primaryKeys.length then
    match primaryKeys.find? (fun pk => !truthyOrder pk) with
    | some pk => .error ⟨pk.name, className⟩
    | none => .ok ()
  else .ok ()

/-- The `primary_key` value written for one descriptor:
`order: pk.options?.order ?? 1` (nullish coalescing, so an explicit 0 is
kept) and `autoGenerate: pk.options?.autoGenerate === true`. -/
def pkAttrOf (pk : PrimaryKeyMetadata) : PrimaryKeyAttr where
  order := (pk.options.bind (fun o => o.order)).getD 1
  autoGenerate :=
    match pk.options.bind (fun o => o.autoGenerate) with
    | some true => true
    | _ => false

/-- One iteration of the write loop of `addPrimaryKeys`: seed the field
with `{ type: pk.type }` when absent, then set its `primary_key`. -/
def writePrimaryKey (s : Schema) (pk : PrimaryKeyMetadata) : Schema :=
  let s1 :=
    if hasKey s pk.name then s else setKey s pk.name (plainNode pk.type)
  modifyKey s1 pk.name (fun n => n.setPrimaryKey (pkAttrOf pk))

/-- `addPrimaryKeys`: validate all orders first, then write every
descriptor into the schema. -/
def addPrimaryKeys (store : Store) (targetSchema : Schema)
    (collectionClass : ClassName) :
    Except IncompletePrimaryKeyOrderError Schema :=
  let pks := store.pksOf collectionClass
  match validatePrimaryKeysOrder pks collectionClass with
  | .error e => .error e
  | .ok _ => .ok (pks.foldl writePrimaryKey targetSchema)

/-- The result of `processCollection`. -/
structure CollectionSchema where
  name : String
  schema : Schema

/-- The result of `processIndex`. -/
structure IndexSchema where
  name : String
  schema : Schema

/-- `processCollection`: build the schema for the class, augment it with
primary keys, and pair it with the registered collection name. -/
def processCollection (store : Store) (fuel : Nat) (cls : ClassName) :
    Except IncompletePrimaryKeyOrderError CollectionSchema :=
  let schema := buildTigrisSchema store fuel true none cls
  match addPrimaryKeys store schema cls with
  | .error e => .error e
  | .ok s2 => .ok ⟨store.collectionNameOf cls, s2⟩

/-- `processIndex`: build the schema in index mode and pair it with the
registered index name. -/
def processIndex (store : Store) (fuel : Nat) (cls : ClassName) :
    IndexSchema :=
  ⟨store.indexNameOf cls, buildTigrisSchema store fuel false none cls⟩

/-!
A small-step view of the Primary Key Augmenter, used to reason about the
state of the in-place-mutated schema at the moment the validation error
is thrown. The source runs the whole validation loop (which never
writes) before the write loop (which never throws); `pkProgram` lists
those operations in exactly that order and `execPKSteps` executes them
sequentially, stopping at the first throw and reporting the schema state
reached at that point.
-/

/-- One operation of `addPrimaryKeys` seen as a sequence of steps. -/
inductive PKStep where
  | check (pk : PrimaryKeyMetadata)
  | write (pk : PrimaryKeyMetadata)

/-- The operation sequence of `addPrimaryKeys`: the validation loop
(only entered for more than one key) followed by the write loop. -/
def pkProgram (pks : List PrimaryKeyMetadata) : List PKStep :=
  (if 1 < pks.length then pks.map PKStep.check else []) ++ pks.map PKStep.write

/-- Execute one step: a check throws on a falsy order chain and leaves
the schema alone, a write updates the schema and never throws. -/
def execPKStep (className : String) (s : Schema) :
    PKStep → Except IncompletePrimaryKeyOrderError Schema
  | .check pk =>
    if truthyOrder pk then .ok s else .error ⟨pk.name, className⟩
  | .write pk => .ok (writePrimaryKey s pk)

/-- Execute a step sequence, stopping at the first throw; the returned
schema is the state at normal completion or at the throw. -/
def execPKSteps (className : String) :
    Schema → List PKStep →
    Option IncompletePrimaryKeyOrderError × Schema
  | s, [] => (none, s)
  | s, st :: rest =>
    match execPKStep className s st with
    | .ok s2 => execPKSteps className s2 rest
    | .error e => (some e, s)

/-- `addPrimaryKeys` as the execution of its operation sequence. -/
def addPrimaryKeysRun (className : String) (s : Schema)
    (pks : List PrimaryKeyMetadata) :
    Option IncompletePrimaryKeyOrderError × Schema :=
  execPKSteps className s (pkProgram pks)

/-! The option applicability table, row by attribute name. -/

/-- The table row for an attribute name (every attribute has exactly one
row in `schemaOptions`; the fallback row is never reached). -/
def rowFor (a : AttrName) : SchemaFieldOptions :=
  (schemaOptions.find? (fun r => r.attrName = a)).getD ⟨a, [], []⟩

/-- The pure type/parent part of the table lookup: field type not
excluded, and the tracked parent type (when any) not excluded. -/
def codeTableAllowed (a : AttrName) (ft : TigrisDataTypes)
    (p : Option TigrisDataTypes) : Bool :=
  !((rowFor a).doesNotApplyTo.contains ft)
    && (match p with
        | none => true
        | some q => !((rowFor a).doesNotApplyToParent.contains q))

/-!
Definitions written from the wording of the specification, for
comparison with the source-derived definitions above. They are named
`claim...` / `amended...` and are used only in the claim theorems.
-/

/-- From the spec wording: the field types an attribute is claimed to be
blocked on (the OBJECT blanket for all attributes but `default`, plus
the extra lists for `id` and `dimensions`; nothing blocks `default`). -/
def claimC2BlockedByType (a : AttrName) (ft : TigrisDataTypes) : Bool :=
  match a with
  | .default => false
  | .timestamp => ft == .OBJECT
  | .searchIndex => ft == .OBJECT
  | .sort => ft == .OBJECT
  | .facet => ft == .OBJECT
  | .dimensions => ft == .OBJECT || ft == .NUMBER
  | .id =>
    ft == .OBJECT || ft == .ARRAY || ft == .NUMBER || ft == .BOOLEAN ||
      ft == .NUMBER_BIGINT || ft == .INT64 || ft == .INT32 ||
      ft == .DATE_TIME
  | .index => ft == .OBJECT

/-- From the spec wording: the tracked parent types an attribute is
claimed to be blocked under (ARRAY for the five listed attributes;
ARRAY or OBJECT for `index`, reading the additionally-blocked-under-
OBJECT sentence charitably as including the ARRAY-parent rule). -/
def claimC2BlockedByParent (a : AttrName) (p : Option TigrisDataTypes) :
    Bool :=
  match p with
  | none => false
  | some q =>
    match a with
    | .searchIndex => q == .ARRAY
    | .sort => q == .ARRAY
    | .facet => q == .ARRAY
    | .dimensions => q == .ARRAY
    | .id => q == .ARRAY
    | .index => q == .ARRAY || q == .OBJECT
    | _ => false

/-- From the spec wording: the claimed applicability of an attribute
whose key is present in the option bag. -/
def claimC2Allowed (a : AttrName) (ft : TigrisDataTypes)
    (p : Option TigrisDataTypes) : Bool :=
  !claimC2BlockedByType a ft && !claimC2BlockedByParent a p

/-- The claimed table amended by the one combination the code blocks
and the claim omits: `index` is also never attached to an ARRAY-typed
field. -/
def amendedC2Allowed (a : AttrName) (ft : TigrisDataTypes)
    (p : Option TigrisDataTypes) : Bool :=
  claimC2Allowed a ft p && !(a == .index && ft == .ARRAY)

/-! Concrete metadata stores used as counterexamples and witnesses. -/

/-- A store with no registered metadata; concrete stores below override
single lookups. -/
def emptyStore : Store where
  collectionFieldsOf := fun _ => []
  searchFieldsOf := fun _ => []
  pksOf := fun _ => []
  collectionNameOf := fun c => c
  indexNameOf := fun c => c

/-- Depth-two nesting: class Outer has an OBJECT field embedding Mid,
Mid has an ARRAY field embedding Leaf, and the Leaf field carries
`facet` in its option bag. The immediate container of the Leaf field is
the ARRAY. -/
def c1MidField : FieldMeta :=
  { name := "arr", type := .ARRAY, embedType := some (Sum.inr "Leaf") }

def c1Store : Store :=
  { emptyStore with
    collectionFieldsOf := fun c =>
      if c = "Outer" then
        [{ name := "inner", type := .OBJECT,
           embedType := some (Sum.inr "Mid") }]
      else if c = "Mid" then [c1MidField]
      else if c = "Leaf" then
        [{ name := "s", type := .STRING,
           schemaFieldOptions := some { facet := some (.vBool true) } }]
      else [] }

/-- The node the build produces for the Leaf field: `facet` attached. -/
def c1LeafNode : SchemaNode :=
  .mk (some (Sum.inl .STRING)) none none none none none none none
    (some (.vBool true)) none none none

def c1LeafSchema : Schema := [("s", c1LeafNode)]

def c1MidSchema : Schema :=
  [("arr", arrayWrapNode (typeNode (some (Sum.inr c1LeafSchema))))]

/-- Two primary keys whose orders are 0 and 1: both carry an order, yet
the truthiness check rejects the 0. -/
def c3Pks : List PrimaryKeyMetadata :=
  [ { name := "a", type := .INT64, options := some { order := some 0 } },
    { name := "b", type := .INT64, options := some { order := some 1 } } ]

def c3Store : Store :=
  { emptyStore with pksOf := fun c => if c = "C" then c3Pks else [] }

/-- Two primary keys with distinct nonzero orders; field a is also a
declared collection field, field b is declared only as a key. -/
def c3wPks : List PrimaryKeyMetadata :=
  [ { name := "a", type := .INT64,
      options := some { order := some 1, autoGenerate := some true } },
    { name := "b", type := .STRING, options := some { order := some 2 } } ]

def c3wStore : Store :=
  { emptyStore with
    collectionFieldsOf := fun c =>
      if c = "C" then [{ name := "a", type := .INT64 }] else [],
    pksOf := fun c => if c = "C" then c3wPks else [] }

/-- A three-dimensional array of strings. -/
def c4Field : FieldMeta :=
  { name := "tags", type := .ARRAY, embedType := some (Sum.inl .STRING),
    arrayDepth := some 3 }

def c4Store : Store :=
  { emptyStore with
    collectionFieldsOf := fun c => if c = "A" then [c4Field] else [] }

/-- The merge-precedence example of the claim: plain bag `{default: 1}`
and search bag `{default: 2, facet: true}` on the same field name. -/
def c5cfBag : FieldOptionsBag := { default := some (.vInt 1) }

def c5sfBag : FieldOptionsBag :=
  { default := some (.vInt 2), facet := some (.vBool true) }

def c5cf : FieldMeta :=
  { name := "f", type := .STRING, schemaFieldOptions := some c5cfBag }

def c5sf : FieldMeta :=
  { name := "f", type := .STRING, schemaFieldOptions := some c5sfBag }

def c5Store : Store :=
  { emptyStore with
    collectionFieldsOf := fun c => if c = "A" then [c5cf] else [],
    searchFieldsOf := fun c => if c = "A" then [c5sf] else [] }

/-- An OBJECT field embedding a class with no fields. -/
def c6Field : FieldMeta :=
  { name := "obj", type := .OBJECT, embedType := some (Sum.inr "Empty") }

def c6Store : Store :=
  { emptyStore with
    collectionFieldsOf := fun c => if c = "Outer" then [c6Field] else [] }

/-- Collection fields a, b and search fields b, c: the unified list must
be a, b, c. -/
def c8Store : Store :=
  { emptyStore with
    collectionFieldsOf := fun c =>
      if c = "A" then
        [{ name := "a", type := .STRING }, { name := "b", type := .INT32 }]
      else [],
    searchFieldsOf := fun c =>
      if c = "A" then
        [{ name := "b", type := .INT32 }, { name := "c", type := .STRING }]
      else [] }

/-- Two primary keys, the second with no options at all, against a
nonempty schema: validation throws before any write. -/
def c10Pks : List PrimaryKeyMetadata :=
  [ { name := "a", type := .INT64, options := some { order := some 1 } },
    { name := "b", type := .INT64 } ]

def c10Schema : Schema := [("x", plainNode .STRING)]

/-! Basic lemmas about the JS-object operations. -/

theorem getKey_setKey_self (s : Schema) (k : String) (v : SchemaNode) :
    getKey (setKey s k v) k = some v := by
  induction s with
  | nil => simp [setKey, getKey]
  | cons hd tl ih =>
    obtain ⟨k2, v2⟩ := hd
    by_cases h : k2 = k
    · simp [setKey, getKey, h]
    · simp [setKey, getKey, h, ih]

theorem getKey_setKey_ne (s : Schema) (k k2 : String) (v : SchemaNode)
    (h : k2 ≠ k) : getKey (setKey s k2 v) k = getKey s k := by
  induction s with
  | nil => simp [setKey, getKey, h]
  | cons hd tl ih =>
    obtain ⟨k3, v3⟩ := hd
    by_cases h3 : k3 = k2
    · simp [setKey, getKey, h3, h, Ne.symm h]
    · by_cases h4 : k3 = k <;>
        simp [setKey, getKey, h3, h4, ih, Ne.symm h]

theorem getKey_modifyKey_self (s : Schema) (k : String)
    (f : SchemaNode → SchemaNode) :
    getKey (modifyKey s k f) k = (getKey s k).map f := by
  induction s with
  | nil => simp [modifyKey, getKey]
  | cons hd tl ih =>
    obtain ⟨k2, v2⟩ := hd
    by_cases h : k2 = k
    · simp [modifyKey, getKey, h]
    · simp [modifyKey, getKey, h, ih]

theorem getKey_modifyKey_ne (s : Schema) (k k2 : String)
    (f : SchemaNode → SchemaNode) (h : k2 ≠ k) :
    getKey (modifyKey s k2 f) k = getKey s k := by
  induction s with
  | nil => simp [modifyKey, getKey]
  | cons hd tl ih =>
    obtain ⟨k3, v3⟩ := hd
    by_cases h3 : k3 = k2
    · simp [modifyKey, getKey, h3, h, Ne.symm h]
    · by_cases h4 : k3 = k <;>
        simp [modifyKey, getKey, h3, h4, ih, Ne.symm h]

theorem hasKey_eq_isSome (s : Schema) (k : String) :
    hasKey s k = (getKey s k).isSome := by
  induction s with
  | nil => simp [hasKey, getKey]
  | cons hd tl ih =>
    obtain ⟨k2, v2⟩ := hd
    by_cases h : k2 = k <;> simp [hasKey, getKey, h, ← ih]

/-! Characterization of the Field Resolver loops. -/

theorem collectStep_foldl (sfs : List FieldMeta) (l : List FieldMeta) :
    ∀ acc : List FieldMeta × List String,
      l.foldl (collectStep sfs) acc =
        (acc.1 ++ l.map (resolveField sfs),
          acc.2 ++ l.map (fun f => f.name)) := by
  induction l with
  | nil => intro acc; simp
  | cons cf rest ih =>
    intro acc
    rw [List.foldl_cons, ih]
    simp [collectStep]

theorem appendUnvisited_foldl (visited : List String)
    (l : List FieldMeta) :
    ∀ init : List FieldMeta,
      l.foldl (appendUnvisited visited) init =
        init ++ l.filter (fun sf => !visited.contains sf.name) := by
  induction l with
  | nil => intro init; simp
  | cons sf rest ih =>
    intro init
    rw [List.foldl_cons]
    by_cases h : sf.name ∈ visited <;> simp [appendUnvisited, h, ih]

/-- The Field Resolver in collection mode, in closed form: the resolved
collection fields in declaration order, then the search-only fields in
declaration order. -/
theorem getSchemaFields_collection_eq (store : Store) (cls : ClassName) :
    getSchemaFields store cls true =
      (store.collectionFieldsOf cls).map
        (resolveField (store.searchFieldsOf cls)) ++
      (store.searchFieldsOf cls).filter
        (fun sf =>
          !((store.collectionFieldsOf cls).map (fun f => f.name)).contains
            sf.name) := by
  simp [getSchemaFields, collectStep_foldl, appendUnvisited_foldl]

/-! Lemmas about the primary-key write loop. -/

theorem getKey_writePrimaryKey_self (s : Schema) (pk : PrimaryKeyMetadata) :
    getKey (writePrimaryKey s pk) pk.name =
      some (((getKey s pk.name).getD (plainNode pk.type)).setPrimaryKey
        (pkAttrOf pk)) := by
  unfold writePrimaryKey
  cases h : hasKey s pk.name with
  | true =>
    have h2 : (getKey s pk.name).isSome := by rw [← hasKey_eq_isSome, h]
    obtain ⟨n, hn⟩ := Option.isSome_iff_exists.mp h2
    simp [h, getKey_modifyKey_self, hn]
  | false =>
    have h2 : getKey s pk.name = none := by
      have h3 := hasKey_eq_isSome s pk.name
      rw [h] at h3
      exact Option.not_isSome_iff_eq_none.mp (by rw [← h3]; simp)
    simp [h, getKey_modifyKey_self, getKey_setKey_self, h2]

theorem getKey_writePrimaryKey_ne (s : Schema) (pk : PrimaryKeyMetadata)
    (k : String) (h : pk.name ≠ k) :
    getKey (writePrimaryKey s pk) k = getKey s k := by
  unfold writePrimaryKey
  cases h2 : hasKey s pk.name <;>
    simp [getKey_modifyKey_ne _ _ _ _ h, getKey_setKey_ne _ _ _ _ h]

theorem getKey_foldl_writePK_of_not_mem (pks : List PrimaryKeyMetadata)
    (k : String) :
    ∀ s : Schema, (∀ pk ∈ pks, pk.name ≠ k) →
      getKey (pks.foldl writePrimaryKey s) k = getKey s k := by
  induction pks with
  | nil => intro s _; rfl
  | cons q rest ih =>
    intro s h
    rw [List.foldl_cons,
      ih _ (fun pk hm => h pk (List.mem_cons_of_mem _ hm)),
      getKey_writePrimaryKey_ne s q k (h q (List.mem_cons_self _ _))]

theorem getKey_foldl_writePK_of_mem (pks : List PrimaryKeyMetadata)
    (pk : PrimaryKeyMetadata) :
    ∀ s : Schema, pk ∈ pks →
      ((pks.map (fun p => p.name)).Nodup) →
      getKey (pks.foldl writePrimaryKey s) pk.name =
        some (((getKey s pk.name).getD (plainNode pk.type)).setPrimaryKey
          (pkAttrOf pk)) := by
  induction pks with
  | nil => intro s hm _; cases hm
  | cons q rest ih =>
    intro s hm hnd
    rw [List.foldl_cons]
    have hq : q.name ∉ rest.map (fun p => p.name) :=
      (List.nodup_cons.mp (by simpa using hnd)).1
    rcases List.mem_cons.mp hm with h | h
    · subst h
      rw [getKey_foldl_writePK_of_not_mem rest pk.name _ ?hrest]
      · exact getKey_writePrimaryKey_self s pk
      case hrest =>
        intro r hr hcontra
        exact hq (hcontra ▸ List.mem_map_of_mem (fun p => p.name) hr)
    · have hne : q.name ≠ pk.name := by
        intro hcontra
        exact hq (hcontra ▸ List.mem_map_of_mem (fun p => p.name) h)
      rw [ih _ h (List.nodup_cons.mp (by simpa using hnd)).2,
        getKey_writePrimaryKey_ne s q pk.name hne]

/-! Lemmas about the small-step view of the Primary Key Augmenter. -/

theorem execPKSteps_checks (cls : String) (pks : List PrimaryKeyMetadata) :
    ∀ s : Schema,
      execPKSteps cls s (pks.map PKStep.check) =
        match pks.find? (fun pk => !truthyOrder pk) with
        | some pk => (some ⟨pk.name, cls⟩, s)
        | none => (none, s) := by
  induction pks with
  | nil => intro s; rfl
  | cons q rest ih =>
    intro s
    cases hq : truthyOrder q <;>
      simp [execPKSteps, execPKStep, hq, ih, List.find?_cons]

theorem execPKSteps_writes (cls : String) (l : List PrimaryKeyMetadata) :
    ∀ s : Schema,
      execPKSteps cls s (l.map PKStep.write) =
        (none, l.foldl writePrimaryKey s) := by
  induction l with
  | nil => intro s; rfl
  | cons q rest ih => intro s; simp [execPKSteps, execPKStep, ih]

theorem execPKSteps_append (cls : String) (a : List PKStep) :
    ∀ (b : List PKStep) (s : Schema),
      execPKSteps cls s (a ++ b) =
        match execPKSteps cls s a with
        | (none, s1) => execPKSteps cls s1 b
        | (some e, s1) => (some e, s1) := by
  induction a with
  | nil => intro b s; rfl
  | cons st rest ih =>
    intro b s
    cases h : execPKStep cls s st with
    | ok s2 => simp [execPKSteps, h, ih]
    | error e => simp [execPKSteps, h]

/-- The small-step execution agrees with `addPrimaryKeys`: it throws the
same error with the input schema untouched, or completes with the same
write-loop result. -/
theorem addPrimaryKeysRun_spec (cls : String) (s : Schema)
    (pks : List PrimaryKeyMetadata) :
    addPrimaryKeysRun cls s pks =
      match validatePrimaryKeysOrder pks cls with
      | .error e => (some e, s)
      | .ok _ => (none, pks.foldl writePrimaryKey s) := by
  unfold addPrimaryKeysRun pkProgram validatePrimaryKeysOrder
  by_cases hl : 1 < pks.length
  · rw [if_pos hl, if_pos hl, execPKSteps_append, execPKSteps_checks]
    cases hf : pks.find? (fun pk => !truthyOrder pk) with
    | some pk => simp
    | none => simp [execPKSteps_writes]
  · rw [if_neg hl, if_neg hl, List.nil_append, execPKSteps_writes]

theorem schemaOptionSupported_rowFor (bag : FieldOptionsBag)
    (a : AttrName) (ft : TigrisDataTypes) (p : Option TigrisDataTypes) :
    schemaOptionSupported bag ft p (rowFor a) =
      ((bagGet bag a).isSome && codeTableAllowed a ft p) := by
  have hattr : (rowFor a).attrName = a := by cases a <;> rfl
  simp [schemaOptionSupported, codeTableAllowed, hattr, Bool.and_assoc]

/-! Claim theorems. -/

/-- Claim C2, counterexample: the claimed applicability table, read from
the spec wording, allows `index` on an ARRAY-typed field (no tracked
parent), but the table in the code blocks that combination — the `index`
row lists ARRAY in its does-not-apply-to set, so the claimed list of
blocked combinations is not exhaustive. -/
theorem c2_counterexample :
    claimC2Allowed .index .ARRAY none = true ∧
    schemaOptionSupported { index := some (.vBool true) } .ARRAY none
      (rowFor .index) = false ∧
    (rowFor .index).doesNotApplyTo.contains .ARRAY = true := by
  decide

/-- Claim C2 as amended: for every option bag, attribute, field type and
tracked parent type, the table lookup attaches the attribute exactly
when its key is present in the bag and the combination is allowed by the
claimed table extended with the one omitted block: `index` is also never
attached to an ARRAY-typed field (and is blocked under both ARRAY and
OBJECT tracked parents). `default` remains unrestricted. -/
theorem c2_option_table_amended (bag : FieldOptionsBag) (a : AttrName)
    (ft : TigrisDataTypes) (p : Option TigrisDataTypes) :
    schemaOptionSupported bag ft p (rowFor a) =
      ((bagGet bag a).isSome && amendedC2Allowed a ft p) := by
  rw [schemaOptionSupported_rowFor]
  have h : ∀ (a2 : AttrName) (ft2 : TigrisDataTypes)
      (p2 : Option TigrisDataTypes),
      codeTableAllowed a2 ft2 p2 = amendedC2Allowed a2 ft2 p2 := by decide
  rw [h]

/-- Claim C5: in collection mode, a field declared in both the
collection-field metadata and the search-field metadata gets as its
unified option bag the key-wise union of the two bags, the search-field
value winning on every key present in both; the unified descriptor with
exactly that merged bag is emitted. -/
theorem c5_merge_precedence :
    (∀ (cf sf : FieldOptionsBag) (a : AttrName),
      bagGet (mergeBags cf sf) a = overrideOpt (bagGet cf a) (bagGet sf a))
    ∧ (∀ cf sf : FieldOptionsBag,
      (mergeBags cf sf).maxLength = overrideOpt cf.maxLength sf.maxLength)
    ∧ (∀ (store : Store) (cls : ClassName) (cf sfm : FieldMeta),
      cf ∈ store.collectionFieldsOf cls →
      searchFieldsLookup (store.searchFieldsOf cls) cf.name = some sfm →
      { cf with schemaFieldOptions := (some
          (mergeBags (cf.schemaFieldOptions.getD emptyBag)
            (sfm.schemaFieldOptions.getD emptyBag))) } ∈
        getSchemaFields store cls true) := by
  refine ⟨?_, ?_, ?_⟩
  · intro cf sf a; cases a <;> rfl
  · intro cf sf; rfl
  · intro store cls cf sfm hm hl
    rw [getSchemaFields_collection_eq]
    apply List.mem_append_left
    have h : resolveField (store.searchFieldsOf cls) cf =
        { cf with schemaFieldOptions := (some
            (mergeBags (cf.schemaFieldOptions.getD emptyBag)
              (sfm.schemaFieldOptions.getD emptyBag))) } := by
      simp [resolveField, mergedOptionOf, hl]
    rw [← h]
    exact List.mem_map_of_mem _ hm

/-- Witness for claim C5 at the example of the claim: plain bag
`{default: 1}` merged with search bag `{default: 2, facet: true}` gives
`{default: 2, facet: true}`, and the descriptor carrying that bag is
emitted for the field declared in both metadata lists. -/
theorem c5_witness :
    bagGet (mergeBags c5cfBag c5sfBag) .default = some (.vInt 2) ∧
    bagGet (mergeBags c5cfBag c5sfBag) .facet = some (.vBool true) ∧
    { c5cf with schemaFieldOptions := (some
        (mergeBags (c5cf.schemaFieldOptions.getD emptyBag)
          (c5sf.schemaFieldOptions.getD emptyBag))) } ∈
      getSchemaFields c5Store "A" true :=
  ⟨(c5_merge_precedence.1 c5cfBag c5sfBag .default).trans rfl,
    (c5_merge_precedence.1 c5cfBag c5sfBag .facet).trans rfl,
    c5_merge_precedence.2.2 c5Store "A" c5cf c5sf (by decide) rfl⟩

/-- Claim C9: schema building is deterministic — with the store contents
unchanged, two invocations on the same class reference return equal
schema documents (the embedding has no state outside the read-only
store, mirroring the absence of hidden mutable state in the source). -/
theorem c9_deterministic_build (store : Store) (fuel : Nat)
    (cls : ClassName) :
    processCollection store fuel cls = processCollection store fuel cls ∧
    processIndex store fuel cls = processIndex store fuel cls :=
  ⟨rfl, rfl⟩

/-- Claim C10: when the augmenter throws `IncompletePrimaryKeyOrderError`,
the schema it was mutating is still exactly the input schema — in the
operation sequence of `addPrimaryKeys` every validation check precedes
every write, and checks do not write. -/
theorem c10_no_partial_augmentation (s : Schema)
    (pks : List PrimaryKeyMetadata) (cls : String)
    (e : IncompletePrimaryKeyOrderError) (s2 : Schema)
    (h : addPrimaryKeysRun cls s pks = (some e, s2)) : s2 = s := by
  rw [addPrimaryKeysRun_spec] at h
  cases hv : validatePrimaryKeysOrder pks cls with
  | error e2 =>
    rw [hv] at h
    exact (Prod.mk.injEq _ _ _ _ ▸ h).2.symm
  | ok u =>
    rw [hv] at h
    simp at h

/-- Witness for claim C10: with one of two primary keys missing its
order, the run throws and reports the input schema unchanged. -/
theorem c10_witness :
    addPrimaryKeysRun "C" c10Schema c10Pks =
      (some ⟨"b", "C"⟩, c10Schema) ∧
    (addPrimaryKeysRun "C" c10Schema c10Pks).2 = c10Schema :=
  ⟨rfl,
    c10_no_partial_augmentation c10Schema c10Pks "C" ⟨"b", "C"⟩
      c10Schema rfl⟩

/-- The while loop of `buildNestedArray` produces exactly `d` nested
array wrappers around the element descriptor. -/
theorem buildNestedArray_eq_iterate (items : SchemaNode) :
    ∀ d : Nat, buildNestedArray items d = arrayWrapNode^[d] items := by
  intro d
  induction d with
  | zero => rfl
  | succ n ih => rw [buildNestedArray, ih, Function.iterate_succ_apply']

/-- Claim C4: an ARRAY-typed field (with no option bag, which does not
participate in nesting) is emitted as exactly `effectiveArrayDepth f`
nested array wrappers — `arrayDepth` when present and greater than one,
one otherwise — whose innermost items slot holds the element descriptor:
the scalar embed tag, or the recursively built nested schema for a
class-reference embed type (`arrayElementNode`). -/
theorem c4_array_nesting (r : Option TigrisDataTypes → ClassName → Schema)
    (p : Option TigrisDataTypes) (s : Schema) (f : FieldMeta)
    (hT : f.type = .ARRAY) (ho : f.schemaFieldOptions = none) :
    getKey (processField r p s f) f.name =
      some (arrayWrapNode^[effectiveArrayDepth f]
        (arrayElementNode r (some (p.getD f.type)) f)) ∧
    1 ≤ effectiveArrayDepth f ∧
    (∀ d, f.arrayDepth = some d → 1 < d → effectiveArrayDepth f = d) ∧
    (∀ d, f.arrayDepth = some d → ¬ 1 < d → effectiveArrayDepth f = 1) ∧
    (f.arrayDepth = none → effectiveArrayDepth f = 1) := by
  obtain ⟨nm, ty, et, ad, so⟩ := f
  subst hT
  subst ho
  refine ⟨?_, ?_, ?_, ?_, ?_⟩
  · simp [processField, getKey_setKey_self, buildNestedArray_eq_iterate]
  · cases had : ad with
    | none => simp [effectiveArrayDepth, had]
    | some d =>
      by_cases h1 : 1 < d
      · simp [effectiveArrayDepth, had, h1]
        omega
      · simp [effectiveArrayDepth, had, h1]
  · intro d hd h1
    simp at hd
    subst hd
    simp [effectiveArrayDepth, h1]
  · intro d hd h1
    simp at hd
    subst hd
    simp [effectiveArrayDepth, h1]
  · intro hd
    simp at hd
    subst hd
    simp [effectiveArrayDepth]

/-- Witness for claim C4 at the example of the claim: a field with
`type = ARRAY, embedType = STRING, arrayDepth = 3` yields exactly three
nested array wrappers terminating in `{ type: STRING }`, both at the
per-field level and through the full build. -/
theorem c4_witness :
    getKey (processField (buildTigrisSchema c4Store 0 true) none [] c4Field)
        "tags" =
      some (arrayWrapNode (arrayWrapNode (arrayWrapNode
        (typeNode (some (Sum.inl .STRING)))))) ∧
    effectiveArrayDepth c4Field = 3 ∧
    buildTigrisSchema c4Store 1 true none "A" =
      [("tags", arrayWrapNode (arrayWrapNode (arrayWrapNode
        (typeNode (some (Sum.inl .STRING))))))] :=
  ⟨((c4_array_nesting (buildTigrisSchema c4Store 0 true) none [] c4Field
      rfl rfl).1).trans rfl, rfl, rfl⟩

/-- Claim C6: an OBJECT-typed field with a class-reference embed type
gets the recursively built nested schema as its type slot only when that
nested schema has at least one field; when the embedded class builds to
an empty schema, the node stays exactly the seeded `{ type: OBJECT }`. -/
theorem c6_empty_embedded_object
    (r : Option TigrisDataTypes → ClassName → Schema)
    (p : Option TigrisDataTypes) (s : Schema) (f : FieldMeta)
    (c : ClassName) (hT : f.type = .OBJECT)
    (he : f.embedType = some (Sum.inr c))
    (ho : f.schemaFieldOptions = none) (hk : hasKey s f.name = false) :
    ((r (some (p.getD f.type)) c).length = 0 →
      getKey (processField r p s f) f.name = some (plainNode .OBJECT)) ∧
    (0 < (r (some (p.getD f.type)) c).length →
      getKey (processField r p s f) f.name =
        some (typeNode (some (Sum.inr (r (some (p.getD f.type)) c))))) := by
  obtain ⟨nm, ty, et, ad, so⟩ := f
  subst hT
  subst he
  subst ho
  constructor
  · intro hlen
    simp [processField, hk, hlen, getKey_setKey_self]
  · intro hlen
    simp [processField, hk, hlen, getKey_setKey_self]

/-- Witness for claim C6: a field embedding a class with no registered
fields keeps its plain `{ type: OBJECT }` node, at the per-field level
and through the full build. -/
theorem c6_witness :
    getKey (processField (buildTigrisSchema c6Store 1 true) none [] c6Field)
        "obj" = some (plainNode .OBJECT) ∧
    buildTigrisSchema c6Store 2 true none "Outer" =
      [("obj", plainNode .OBJECT)] :=
  ⟨(c6_empty_embedded_object (buildTigrisSchema c6Store 1 true) none []
      c6Field "Empty" rfl rfl rfl rfl).1 rfl, rfl⟩

/-- Claim C1, counterexample: in a class graph Outer(OBJECT) containing
Mid whose field arr is an ARRAY of Leaf, the Leaf field s carries
`facet` in its bag; the immediate enclosing container of s is the ARRAY,
and ARRAY is in the facet does-not-apply-to-parent set, so the claim
predicts suppression — yet the built schema attaches `facet` to s
(visible in `c1LeafNode` inside the result), because the code consults
the type of the outermost container (OBJECT), not the nearest one. -/
theorem c1_counterexample :
    buildTigrisSchema c1Store 4 true none "Outer" =
      [("inner", typeNode (some (Sum.inr c1MidSchema)))] ∧
    SchemaNode.attr c1LeafNode .facet = some (.vBool true) ∧
    (rowFor .facet).doesNotApplyToParent.contains .ARRAY = true :=
  ⟨rfl, rfl, by decide⟩

/-- Claim C1 as amended: once a parent field type is tracked, the
recursion threads that same type down unchanged (it is never replaced by
the type of a nearer container), so for a field at nesting depth two or
more, attribute applicability is decided against the type tag of the
OUTERMOST enclosing array/object ancestor — the immediate ancestor type
only reaches fields at depth one. Formally: for a container field with
an already-tracked parent type q, the nested schema embedded in the
emitted node is the recursive build with parent q, not with the type of
the field itself. -/
theorem c1_parent_type_outermost
    (r : Option TigrisDataTypes → ClassName → Schema)
    (q : TigrisDataTypes) (s : Schema) (f : FieldMeta) (c : ClassName)
    (he : f.embedType = some (Sum.inr c))
    (ho : f.schemaFieldOptions = none) :
    (f.type = .ARRAY →
      getKey (processField r (some q) s f) f.name =
        some (buildNestedArray (typeNode (some (Sum.inr (r (some q) c))))
          (effectiveArrayDepth f))) ∧
    (f.type = .OBJECT → 0 < (r (some q) c).length →
      getKey (processField r (some q) s f) f.name =
        some (typeNode (some (Sum.inr (r (some q) c))))) := by
  obtain ⟨nm, ty, et, ad, so⟩ := f
  subst he
  subst ho
  constructor
  · intro hT
    subst hT
    simp [processField, arrayElementNode, getKey_setKey_self]
  · intro hT hlen
    subst hT
    simp [processField, hlen, getKey_setKey_self]

/-- Witness for claim C1 (amended): with tracked parent type OBJECT, the
ARRAY field of Mid embeds the Leaf schema built with parent OBJECT — the
tracked outer type survives the ARRAY hop. -/
theorem c1_witness :
    getKey (processField (buildTigrisSchema c1Store 1 true) (some .OBJECT)
        [] c1MidField) "arr" =
      some (buildNestedArray (typeNode (some (Sum.inr
        (buildTigrisSchema c1Store 1 true (some .OBJECT) "Leaf")))) 1) :=
  (c1_parent_type_outermost (buildTigrisSchema c1Store 1 true) .OBJECT []
    c1MidField "Leaf" rfl rfl).1 rfl

/-- Claim C3, counterexample: both primary keys of class C carry an
explicit order (0 and 1), so the claim predicts a successful build, but
the build fails with `IncompletePrimaryKeyOrderError` naming field a:
the validation tests JS truthiness of the order, and 0 is falsy. -/
theorem c3_counterexample :
    (c3Pks.all fun pk =>
      ((pk.options.bind fun o => o.order)).isSome) = true ∧
    processCollection c3Store 1 "C" = .error ⟨"a", "C"⟩ :=
  ⟨by decide, rfl⟩

/-- Claim C3 as amended: with two or more primary-key descriptors, if at
least one has a falsy order chain (options or order absent, or order
equal to 0) the build fails with `IncompletePrimaryKeyOrderError`
carrying the first such field name and the class name; if every
descriptor carries a nonzero order the build succeeds and every
descriptor field ends up with a `primary_key` holding the order and
autoGenerate flag of that descriptor. -/
theorem c3_composite_pk_validation_amended (store : Store) (fuel : Nat)
    (cls : ClassName) (hlen : 1 < (store.pksOf cls).length)
    (hnd : ((store.pksOf cls).map (fun pk => pk.name)).Nodup) :
    ((∃ pk ∈ store.pksOf cls, truthyOrder pk = false) →
      ∃ pk, (store.pksOf cls).find? (fun pk2 => !truthyOrder pk2) = some pk ∧
        pk ∈ store.pksOf cls ∧ truthyOrder pk = false ∧
        processCollection store fuel cls = .error ⟨pk.name, cls⟩) ∧
    ((∀ pk ∈ store.pksOf cls, truthyOrder pk = true) →
      ∃ out, processCollection store fuel cls = .ok out ∧
        ∀ pk ∈ store.pksOf cls,
          getKey out.schema pk.name =
            some (((getKey (buildTigrisSchema store fuel true none cls)
              pk.name).getD (plainNode pk.type)).setPrimaryKey
                (pkAttrOf pk))) := by
  constructor
  · intro hex
    obtain ⟨pk, hpkmem, hpkfalse⟩ := hex
    have hfind : ((store.pksOf cls).find?
        (fun pk2 => !truthyOrder pk2)).isSome := by
      rw [List.find?_isSome]
      exact ⟨pk, hpkmem, by simp [hpkfalse]⟩
    obtain ⟨pk0, hpk0⟩ := Option.isSome_iff_exists.mp hfind
    have hval : validatePrimaryKeysOrder (store.pksOf cls) cls =
        .error ⟨pk0.name, cls⟩ := by
      unfold validatePrimaryKeysOrder
      rw [if_pos hlen, hpk0]
    refine ⟨pk0, hpk0, List.mem_of_find?_eq_some hpk0, ?_, ?_⟩
    · have h2 := List.find?_some hpk0
      simpa using h2
    · simp only [processCollection, addPrimaryKeys, hval]
  · intro hall
    have hfind : (store.pksOf cls).find? (fun pk2 => !truthyOrder pk2) =
        none := by
      rw [List.find?_eq_none]
      intro x hx
      simp [hall x hx]
    have hval : validatePrimaryKeysOrder (store.pksOf cls) cls = .ok () := by
      unfold validatePrimaryKeysOrder
      rw [if_pos hlen, hfind]
    refine ⟨⟨store.collectionNameOf cls,
      (store.pksOf cls).foldl writePrimaryKey
        (buildTigrisSchema store fuel true none cls)⟩, ?_, ?_⟩
    · simp only [processCollection, addPrimaryKeys, hval]
    · intro pk hm
      exact getKey_foldl_writePK_of_mem _ pk _ hm hnd

/-- Witness for claim C3 (amended): two primary keys with orders 1 and 2
build successfully and both nodes carry their `primary_key`. -/
theorem c3_witness :
    1 < (c3wStore.pksOf "C").length ∧
    ∃ out, processCollection c3wStore 1 "C" = .ok out ∧
      ∀ pk ∈ c3wStore.pksOf "C",
        getKey out.schema pk.name =
          some (((getKey (buildTigrisSchema c3wStore 1 true none "C")
            pk.name).getD (plainNode pk.type)).setPrimaryKey
              (pkAttrOf pk)) :=
  ⟨by decide,
    (c3_composite_pk_validation_amended c3wStore 1 "C" (by decide)
      (by decide)).2 (by decide)⟩

/-- Claim C7: after a successful primary-key augmentation, every
descriptor field is present — seeded as `{ type: pk.type }` when it was
absent from the schema, otherwise the existing node — and carries
`primary_key` with order `options?.order ?? 1` (an explicit order is
kept, including 0) and autoGenerate true exactly when the descriptor has
autoGenerate strictly equal to true. -/
theorem c7_primary_key_augmentation (store : Store) (s : Schema)
    (cls : ClassName) (out : Schema)
    (hok : addPrimaryKeys store s cls = .ok out)
    (hnd : ((store.pksOf cls).map (fun pk => pk.name)).Nodup) :
    (∀ pk ∈ store.pksOf cls,
      getKey out pk.name =
        some (((getKey s pk.name).getD (plainNode pk.type)).setPrimaryKey
          (pkAttrOf pk))) ∧
    (∀ pk : PrimaryKeyMetadata,
      (pkAttrOf pk).order = ((pk.options.bind fun o => o.order)).getD 1 ∧
      ((pkAttrOf pk).autoGenerate = true ↔
        (pk.options.bind fun o => o.autoGenerate) = some true)) := by
  constructor
  · intro pk hm
    have hout : out = (store.pksOf cls).foldl writePrimaryKey s := by
      simp only [addPrimaryKeys] at hok
      cases hv : validatePrimaryKeysOrder (store.pksOf cls) cls with
      | error e => rw [hv] at hok; simp at hok
      | ok u =>
        rw [hv] at hok
        injection hok with h2
        exact h2.symm
    rw [hout]
    exact getKey_foldl_writePK_of_mem _ pk _ hm hnd
  · intro pk
    refine ⟨rfl, ?_⟩
    cases hx : pk.options.bind (fun o => o.autoGenerate) with
    | none => simp [pkAttrOf, hx]
    | some b => cases b <;> simp [pkAttrOf, hx]

/-- Witness for claim C7: augmenting a schema that already holds field a
adds field b (declared only as a key) seeded with its type and carrying
order 2 and autoGenerate false. -/
theorem c7_witness :
    getKey (c3wPks.foldl writePrimaryKey [("a", plainNode .INT64)]) "b" =
      some ((plainNode .STRING).setPrimaryKey ⟨2, false⟩) :=
  (c7_primary_key_augmentation c3wStore [("a", plainNode .INT64)] "C"
    (c3wPks.foldl writePrimaryKey [("a", plainNode .INT64)]) rfl
    (by decide)).1 ⟨"b", .STRING, some ⟨some 2, none⟩⟩ (by decide)

/-- Claim C8: in collection mode the unified list holds the
collection-declared field names first in declaration order, then the
names declared only as search fields in declaration order; when the two
metadata lists each carry distinct names, the unified list has exactly
one descriptor per distinct name. -/
theorem c8_field_ordering (store : Store) (cls : ClassName)
    (hc : ((store.collectionFieldsOf cls).map (fun f => f.name)).Nodup)
    (hs : ((store.searchFieldsOf cls).map (fun f => f.name)).Nodup) :
    ((getSchemaFields store cls true).map (fun f => f.name) =
      (store.collectionFieldsOf cls).map (fun f => f.name) ++
      ((store.searchFieldsOf cls).filter (fun sf =>
        !((store.collectionFieldsOf cls).map (fun f => f.name)).contains
          sf.name)).map (fun f => f.name)) ∧
    ((getSchemaFields store cls true).map (fun f => f.name)).Nodup := by
  have hEq := getSchemaFields_collection_eq store cls
  constructor
  · rw [hEq, List.map_append, List.map_map]
    rfl
  · rw [hEq, List.map_append]
    apply List.Nodup.append
    · rw [List.map_map]
      exact hc
    · exact ((List.filter_sublist _).map _).nodup hs
    · intro a ha1 ha2
      obtain ⟨sf, hsf, rfl⟩ := List.mem_map.mp ha2
      obtain ⟨hsfmem, hq⟩ := List.mem_filter.mp hsf
      have hq2 : sf.name ∉
          (store.collectionFieldsOf cls).map (fun f => f.name) := by
        simpa using hq
      rw [List.map_map] at ha1
      exact hq2 ha1

/-- Witness for claim C8: collection fields a, b and search fields b, c
resolve to the unified name list a, b, c with no duplicate. -/
theorem c8_witness :
    (getSchemaFields c8Store "A" true).map (fun f => f.name) =
      ["a", "b", "c"] ∧
    ((getSchemaFields c8Store "A" true).map (fun f => f.name)).Nodup :=
  ⟨rfl, (c8_field_ordering c8Store "A" (by decide) (by decide)).2⟩

end TigrisSchemaProc
